import Mathlib

/-!
Verification of the Kerala biosolid dispatch system.

Shallow embedding of the core of the repository:
* `GreedySolver` (src/src/solver.py): the day-by-day greedy dispatch engine;
* `DataManager._compute_rain_lock_matrix` (src/results/src/data_manager.py):
  the forward-looking rain-lock index;
* `calculate_metrics` (src/submission/source_code/calculate_metrics.py):
  the independent metrics-reconciliation replay.

Real numbers of the Python source (floats) are modelled as rationals `ℚ`;
dictionaries keyed by ids are modelled as total functions `ℕ → ℚ` (Python's
`dict.get(k, 0)` default is built into the function), and dictionaries whose
lookups can miss without a default (`dict.get(k)` returning `None`) as
`ℕ → Option ℚ`.
-/

/-- Static configuration constants (config.json fields read by the solver
and by calculate_metrics). -/
structure Config where
  truckCapacity : ℚ      -- logistics_constants.truck_capacity_tons
  nContent : ℚ           -- agronomic_constants.nitrogen_content_kg_per_ton_biosolid
  overflowPenalty : ℚ    -- environmental_thresholds.stp_overflow_penalty_kg_co2_per_ton
  offsetCredit : ℚ       -- agronomic_constants.synthetic_n_offset_credit_kg_co2_per_kg_n
  seqCredit : ℚ          -- agronomic_constants.soil_organic_carbon_gain_kg_co2_per_kg_biosolid
  transportFactor : ℚ    -- logistics_constants.diesel_emission_factor_kg_co2_per_km
  leachingRate : ℚ       -- agronomic_constants.leaching_penalty_kg_co2_per_kg_excess_n

/-- A row of stp_registry.csv as used by the solver: id, fixed daily output
(tons) and storage capacity (tons).  Coordinates only feed the distance
matrix, which is taken as an input here. -/
structure Stp where
  stpId : ℕ
  dailyOutput : ℚ
  storageMax : ℚ

/-- One appended row of the solution log: {date, stp_id, farm_id, tons_delivered}. -/
structure DeliveryEvent where
  day : ℕ
  stpId : ℕ
  farmId : ℕ
  tons : ℚ

/-- The engine's mutable state during a day: the `stp_storage` dict, the
day-scoped residual demand dict `daily_demands`, and the accumulated
`solution` list. -/
structure EngineState where
  storage : ℕ → ℚ
  residual : ℕ → ℚ
  events : List DeliveryEvent

/-- `package_tons = min(self.TRUCK_CAPACITY, current_load)` (solver.py line 100). -/
def packageTons (cfg : Config) (load : ℚ) : ℚ :=
  min cfg.truckCapacity load

/-- `useful_n = min(package_n, n_demand)` (solver.py line 110). -/
def usefulN (cfg : Config) (load nDemand : ℚ) : ℚ :=
  min (packageTons cfg load * cfg.nContent) nDemand

/-- `excess_n = max(0, package_n - (n_demand * 1.1))` (solver.py line 111). -/
def excessN (cfg : Config) (load nDemand : ℚ) : ℚ :=
  max 0 (packageTons cfg load * cfg.nContent - nDemand * (11/10))

/-- `net_score` of a candidate (solver.py line 131):
`(useful_n * OFFSET_CREDIT) + credits_seq - transport_emission - leaching_cost`
where `credits_seq = package_tons * 1000 * 0.2` (line 118: the sequestration
rate is the literal 0.2 in the source, not the configured `SEQ_CREDIT`). -/
def netScore (cfg : Config) (load nDemand d : ℚ) : ℚ :=
  usefulN cfg load nDemand * cfg.offsetCredit
    + packageTons cfg load * 1000 * (1/5)
    - d * cfg.transportFactor
    - excessN cfg load nDemand * cfg.leachingRate

/-- Candidate record built per valid farm (solver.py lines 133-140). -/
structure Candidate where
  farmId : ℕ
  dist : ℚ
  score : ℚ
  demand : ℚ
  useful : ℚ
  package : ℚ

/-- Candidate construction loop (solver.py lines 93-140): farms with no
distance-matrix entry are skipped (`if dist is None: continue`); the demand
seen is the current residual (`daily_demands.get(farm_id, 0)`). -/
def buildCandidates (cfg : Config) (dist : ℕ → ℕ → Option ℚ) (stpId : ℕ)
    (load : ℚ) (validFarms : List ℕ) (residual : ℕ → ℚ) : List Candidate :=
  validFarms.filterMap fun f =>
    match dist stpId f with
    | none => none
    | some d =>
      let nd := residual f
      some { farmId := f, dist := d, score := netScore cfg load nd d,
             demand := nd, useful := usefulN cfg load nd,
             package := packageTons cfg load }

/-- One dispatch (solver.py lines 178-200): ship
`min(TRUCK_CAPACITY, stp_storage[stp_id])` tons, append the event, decrement
the plant's storage, and floor-decrement the farm's residual demand. -/
def dispatchStep (cfg : Config) (day stpId farmId : ℕ) (s : EngineState) :
    EngineState :=
  let ship := min cfg.truckCapacity (s.storage stpId)
  { storage := Function.update s.storage stpId (s.storage stpId - ship)
    residual := Function.update s.residual farmId
      (max 0 (s.residual farmId - ship * cfg.nContent))
    events := s.events ++ [⟨day, stpId, farmId, ship⟩] }

/-- The greedy walk over the sorted candidate list (solver.py lines 153-205):
break when storage is exhausted; skip a candidate that is neither urgent
(storage above capacity) nor profitable (score > 0) — in the source the
`break` after this `continue` is unreachable, so the walk moves to the next
candidate; otherwise dispatch one truckload and continue with the rest. -/
def dispatchWalk (cfg : Config) (day stpId : ℕ) (stpMax : ℚ) :
    List Candidate → EngineState → EngineState
  | [], s => s
  | c :: rest, s =>
    if s.storage stpId ≤ 0 then s
    else if ¬stpMax < s.storage stpId ∧ ¬0 < c.score then
      dispatchWalk cfg day stpId stpMax rest s
    else
      dispatchWalk cfg day stpId stpMax rest (dispatchStep cfg day stpId c.farmId s)

/-- Per-plant urgency snapshot (solver.py lines 56-71). `fillFrac` is
`current / max` (total division on `ℚ`; plant capacities in the dataset are
positive, so the Python expression never divides by zero there). -/
structure StpStatus where
  stpId : ℕ
  current : ℚ
  maxS : ℚ
  excess : ℚ
  fillFrac : ℚ

/-- Build the status row for one plant from the replenished storage map. -/
def statusOf (storage : ℕ → ℚ) (p : Stp) : StpStatus :=
  { stpId := p.stpId, current := storage p.stpId, maxS := p.storageMax,
    excess := max 0 (storage p.stpId - p.storageMax),
    fillFrac := storage p.stpId / p.storageMax }

/-- The sort order of `stp_status.sort(key=(excess, fill_ratio), reverse=True)`:
descending lexicographically on (excess, fill fraction); a stable merge sort
with this `le` reproduces Python's stable descending sort. -/
def urgencyLe (a b : StpStatus) : Bool :=
  decide (b.excess < a.excess ∨ (b.excess = a.excess ∧ b.fillFrac ≤ a.fillFrac))

/-- `GreedySolver._dispatch_logic` (solver.py lines 79-205): return early on
non-positive snapshot load, otherwise build candidates against the live
residual map, sort them descending by score, and walk them greedily. -/
def dispatchLogic (cfg : Config) (dist : ℕ → ℕ → Option ℚ) (day : ℕ)
    (stp : StpStatus) (validFarms : List ℕ) (s : EngineState) : EngineState :=
  if stp.current ≤ 0 then s
  else
    dispatchWalk cfg day stp.stpId stp.maxS
      ((buildCandidates cfg dist stp.stpId stp.current validFarms s.residual).mergeSort
        (fun a b => decide (b.score ≤ a.score))) s

/-- Step 1 of `_process_day`: `stp_storage[id] += daily_output_tons` for
every plant, in registry order. -/
def replenish (stps : List Stp) (storage : ℕ → ℚ) : ℕ → ℚ :=
  stps.foldl (fun st p => Function.update st p.stpId (st p.stpId + p.dailyOutput)) storage

/-- Step 3 of `_process_day`: a farm is valid iff its zone's lock flag,
defaulted to `False` when absent (`rain_locks.get(zone, False)`), is false.
`farmZone` is the (farm id, zone) association in farm-registry order. -/
def validFarmsOf (farmZone : List (ℕ × ℕ)) (rainLock : ℕ → Option Bool) : List ℕ :=
  (farmZone.filter fun fz => !((rainLock fz.2).getD false)).map Prod.fst

/-- `GreedySolver._process_day` (solver.py lines 35-77): replenish storage,
snapshot demand, filter rain-locked farms, rank plants by urgency, then run
the per-plant dispatch subroutine over the shared state.  There is no
storage clamp in this function: nothing bounds storage by capacity. -/
def processDay (cfg : Config) (stps : List Stp) (farmZone : List (ℕ × ℕ))
    (dist : ℕ → ℕ → Option ℚ) (rainLock : ℕ → Option Bool) (demand : ℕ → ℚ)
    (day : ℕ) (storage : ℕ → ℚ) (events : List DeliveryEvent) : EngineState :=
  let storage1 := replenish stps storage
  ((stps.map (statusOf storage1)).mergeSort urgencyLe).foldl
    (fun s stp => dispatchLogic cfg dist day stp (validFarmsOf farmZone rainLock) s)
    { storage := storage1, residual := demand, events := events }

/-- The static inputs of a full-year run of `GreedySolver.solve`. -/
structure YearInput where
  stps : List Stp
  farmZone : List (ℕ × ℕ)
  dist : ℕ → ℕ → Option ℚ
  rainLock : ℕ → ℕ → Option Bool
  demandOf : ℕ → ℕ → ℚ
  numDays : ℕ

/-- `GreedySolver.solve` with the final storage kept: fold `_process_day`
over the days in order, starting from all-zero storage and an empty solution
list; each day's residual-demand map is rebuilt from `demandOf` and
discarded at day end, exactly as `get_demand_for_day` builds a fresh dict. -/
def solveFull (cfg : Config) (inp : YearInput) : (ℕ → ℚ) × List DeliveryEvent :=
  (List.range inp.numDays).foldl
    (fun st d =>
      let s := processDay cfg inp.stps inp.farmZone inp.dist (inp.rainLock d)
        (inp.demandOf d) d st.1 st.2
      (s.storage, s.events))
    (fun _ => 0, [])

/-- The solution log returned by `GreedySolver.solve`. -/
def solve (cfg : Config) (inp : YearInput) : List DeliveryEvent :=
  (solveFull cfg inp).2

/-- Forward-window rain sum of `_compute_rain_lock_matrix`
(data_manager.py lines 63-65): `FixedForwardWindowIndexer(window_size=W)`
with `min_periods=1` sums, for row `d`, the window of the next `W` rows
truncated at the end of the data — i.e. `take W` of `drop d`.  `rain` is one
zone's rainfall column in date order. -/
def forwardWindowSum (rain : List ℚ) (W d : ℕ) : ℚ :=
  ((rain.drop d).take W).sum

/-- The lock flag of `_compute_rain_lock_matrix` (data_manager.py line 67):
`rolling_sum > threshold`, the truncated partial-window sum still compared
against the full threshold. -/
def rainLockFlag (threshold : ℚ) (W : ℕ) (rain : List ℚ) (d : ℕ) : Bool :=
  decide (threshold < forwardWindowSum rain W d)

/-- Running totals accumulated by `calculate_metrics`. -/
structure Totals where
  offsetGain : ℚ
  seqGain : ℚ
  transport : ℚ
  leaching : ℚ
  overflow : ℚ

/-- Per-row transport emission of the reconciler (calculate_metrics.py lines
66-74): `dist = dm.distance_matrix.get((stp_id, farm_id), 0)` — a missing
distance entry is defaulted to 0 km — times the diesel factor (one truck). -/
def moveTransport (cfg : Config) (dist : ℕ → ℕ → Option ℚ) (e : DeliveryEvent) : ℚ :=
  ((dist e.stpId e.farmId).getD 0) * cfg.transportFactor

/-- The reconciler's per-move loop (calculate_metrics.py lines 59-78):
accumulate transport emission and subtract each row's tons from the
re-simulated storage. -/
def applyMoves (cfg : Config) (dist : ℕ → ℕ → Option ℚ)
    (moves : List DeliveryEvent) (storage : ℕ → ℚ) (acc : ℚ) : (ℕ → ℚ) × ℚ :=
  moves.foldl
    (fun st m =>
      (Function.update st.1 m.stpId (st.1 m.stpId - m.tons),
       st.2 + moveTransport cfg dist m))
    (storage, acc)

/-- Total tons of the day's moves delivered to farm `f`
(`moves.groupby('farm_id')['tons_delivered'].sum()`). -/
def farmDayTons (moves : List DeliveryEvent) (f : ℕ) : ℚ :=
  ((moves.filter fun m => m.farmId == f).map DeliveryEvent.tons).sum

/-- The reconciler's aggregate-first farm loop (calculate_metrics.py lines
88-106): walk the distinct farm ids of the day's moves once each, and for
each compare the farm's total delivered nitrogen against the day's original
demand: `useful_n = min(delivered_n, demand_n)`,
`excess_n = max(0, delivered_n - demand_n * 1.1)`; returns the day's
(offset gain, sequestration gain, leaching penalty) increments. -/
def dayGains (cfg : Config) (demand : ℕ → ℚ) (moves : List DeliveryEvent) :
    ℚ × ℚ × ℚ :=
  ((moves.map DeliveryEvent.farmId).dedup).foldl
    (fun acc f =>
      let deliveredTons := farmDayTons moves f
      let deliveredN := deliveredTons * cfg.nContent
      let demandN := demand f
      (acc.1 + min deliveredN demandN * cfg.offsetCredit,
       acc.2.1 + deliveredTons * 1000 * cfg.seqCredit,
       acc.2.2 + max 0 (deliveredN - demandN * (11/10)) * cfg.leachingRate))
    (0, 0, 0)

/-- The reconciler's overflow check (calculate_metrics.py lines 108-118):
for each plant in registry order, if its re-simulated storage exceeds
capacity, charge `excess * stp_overflow_penalty` and clamp the storage to
capacity exactly. -/
def overflowClamp (cfg : Config) (stps : List Stp) (storage : ℕ → ℚ) (acc : ℚ) :
    (ℕ → ℚ) × ℚ :=
  stps.foldl
    (fun st p =>
      if p.storageMax < st.1 p.stpId then
        (Function.update st.1 p.stpId p.storageMax,
         st.2 + (st.1 p.stpId - p.storageMax) * cfg.overflowPenalty)
      else st)
    (storage, acc)

/-- One reconciler day before the overflow check: replenish the re-simulated
storage, process the day's solution rows, and score the aggregated farm
totals.  Returns (storage before clamping, updated totals). -/
def reconPreClamp (cfg : Config) (stps : List Stp) (dist : ℕ → ℕ → Option ℚ)
    (demand : ℕ → ℚ) (moves : List DeliveryEvent) (storage : ℕ → ℚ)
    (t : Totals) : (ℕ → ℚ) × Totals :=
  let storage1 := replenish stps storage
  let moved := applyMoves cfg dist moves storage1 t.transport
  let gains := dayGains cfg demand moves
  (moved.1,
   { t with transport := moved.2,
            offsetGain := t.offsetGain + gains.1,
            seqGain := t.seqGain + gains.2.1,
            leaching := t.leaching + gains.2.2 })

/-- One full reconciler day (calculate_metrics.py lines 46-118): the
pre-clamp processing followed by the overflow check. -/
def reconDay (cfg : Config) (stps : List Stp) (dist : ℕ → ℕ → Option ℚ)
    (demand : ℕ → ℚ) (moves : List DeliveryEvent) (storage : ℕ → ℚ)
    (t : Totals) : (ℕ → ℚ) × Totals :=
  let pre := reconPreClamp cfg stps dist demand moves storage t
  let clamped := overflowClamp cfg stps pre.1 pre.2.overflow
  (clamped.1, { pre.2 with overflow := clamped.2 })

/-- `total_delivered_tons = solution['tons_delivered'].sum()`. -/
def totalTons (sol : List DeliveryEvent) : ℚ :=
  (sol.map DeliveryEvent.tons).sum

/-- `total_round_trip_km` (calculate_metrics.py lines 167-171): per row,
the distance-matrix entry defaulted to 0 km, doubled, then summed. -/
def totalRoundTripKm (dist : ℕ → ℕ → Option ℚ) (sol : List DeliveryEvent) : ℚ :=
  (sol.map fun e => ((dist e.stpId e.farmId).getD 0) * 2).sum

/-- `logistics_efficiency` (calculate_metrics.py lines 173-175): tons per
round-trip km, left at 0 when the denominator is not positive. -/
def logisticsEfficiency (dist : ℕ → ℕ → Option ℚ) (sol : List DeliveryEvent) : ℚ :=
  if 0 < totalRoundTripKm dist sol then totalTons sol / totalRoundTripKm dist sol
  else 0

/-- Modelled from the claim's words (for C2): the candidate score with the
sequestration credit taken from the ConfigStore rate (per kg of biosolid),
`credit = useful_n * offset_rate + package_tons * 1000 * seq_rate`, minus
one-way transport cost and leaching cost. -/
def netScoreSpec (cfg : Config) (load nDemand d : ℚ) : ℚ :=
  usefulN cfg load nDemand * cfg.offsetCredit
    + packageTons cfg load * 1000 * cfg.seqCredit
    - d * cfg.transportFactor
    - excessN cfg load nDemand * cfg.leachingRate

/-- Modelled from the claim's words (for C9): aggregate first, then score
each farm that received anything that day against the day's original demand:
`useful_n = min(total delivered N, demand)`,
`excess_n = max(0, total delivered N - 1.1 * demand)`, summed over the set
of farms that appear in the day's moves. -/
def aggregateFirstGains (cfg : Config) (demand : ℕ → ℚ)
    (moves : List DeliveryEvent) : ℚ × ℚ × ℚ :=
  ((moves.map DeliveryEvent.farmId).toFinset.sum fun f =>
      min (farmDayTons moves f * cfg.nContent) (demand f) * cfg.offsetCredit,
   (moves.map DeliveryEvent.farmId).toFinset.sum fun f =>
      farmDayTons moves f * 1000 * cfg.seqCredit,
   (moves.map DeliveryEvent.farmId).toFinset.sum fun f =>
      max 0 (farmDayTons moves f * cfg.nContent - demand f * (11/10)) * cfg.leachingRate)

lemma sum_take_eq_sum_getD (m : List ℚ) (W : ℕ) :
    (m.take W).sum = ∑ i in Finset.range W, m.getD i 0 := by
  induction W generalizing m with
  | zero => simp
  | succ W ih =>
    cases m with
    | nil => simp
    | cons a t =>
      rw [List.take_succ_cons, List.sum_cons, ih t, Finset.sum_range_succ']
      simp [add_comm]

lemma getD_drop_eq (l : List ℚ) (d i : ℕ) :
    (l.drop d).getD i 0 = l.getD (d + i) 0 := by
  simp [List.getD_eq_getElem?_getD, List.getElem?_drop]

lemma forwardWindowSum_eq (rain : List ℚ) (W d : ℕ) :
    forwardWindowSum rain W d
      = ∑ i in Finset.Ico d (min (d + W) rain.length), rain.getD i 0 := by
  rw [forwardWindowSum, sum_take_eq_sum_getD]
  rw [Finset.sum_congr rfl fun i _ => getD_drop_eq rain d i]
  have h3 : ∑ i in Finset.Ico d (d + W), rain.getD i 0
      = ∑ i in Finset.range W, rain.getD (d + i) 0 := by
    rw [Finset.sum_Ico_eq_sum_range]; simp
  rw [← h3]
  refine (Finset.sum_subset ?_ ?_).symm
  · exact Finset.Ico_subset_Ico le_rfl (min_le_left _ _)
  · intro x hx hnx
    rcases Finset.mem_Ico.mp hx with ⟨hdx, hxW⟩
    have hlen : rain.length ≤ x := by
      rcases Nat.lt_or_ge x rain.length with hlt | hge
      · exact absurd (Finset.mem_Ico.mpr ⟨hdx, lt_min hxW hlt⟩) hnx
      · exact hge
    exact List.getD_eq_default _ _ (by simpa using hlen)

/-- Claim C3: for every date `d` and zone (column) `z`, the rain-lock flag is
true exactly when the rainfall sum over the forward window `[d, d+W-1]`,
truncated at the last available date but still compared against the full
threshold, strictly exceeds the threshold. -/
theorem rainLockFlag_iff (threshold : ℚ) (W : ℕ) (rain : List ℚ) (d : ℕ) :
    rainLockFlag threshold W rain d = true ↔
      threshold < ∑ i in Finset.Ico d (min (d + W) rain.length), rain.getD i 0 := by
  rw [rainLockFlag, decide_eq_true_iff, forwardWindowSum_eq]

/-- Claim C8: the full-year simulation is a pure function of its inputs
(the source uses no randomness, iterates dicts in deterministic insertion
order and sorts stably), so two runs on identical inputs give identical
solution logs, event for event and in order. -/
theorem solve_deterministic (cfg cfg' : Config) (inp inp' : YearInput)
    (hc : cfg = cfg') (hi : inp = inp') : solve cfg inp = solve cfg' inp' := by
  subst hc; subst hi; rfl

def cfgWit : Config :=
  { truckCapacity := 10, nContent := 25, overflowPenalty := 1000,
    offsetCredit := 5, seqCredit := 1/5, transportFactor := 9/10,
    leachingRate := 10 }

def inpWit : YearInput :=
  { stps := [⟨0, 10, 5⟩], farmZone := [(0, 0)], dist := fun _ _ => some 1,
    rainLock := fun _ _ => none, demandOf := fun _ _ => 100, numDays := 2 }

/-- Witness for C8 at a concrete one-plant, one-farm, two-day input. -/
theorem solve_deterministic_witness : solve cfgWit inpWit = solve cfgWit inpWit :=
  solve_deterministic cfgWit cfgWit inpWit inpWit rfl rfl

/-- Claim C7: the engine charges each candidate one-way distance times the
diesel factor (so the score at distance `d` is the zero-distance score minus
`d * factor`), while the reconciler's logistics efficiency divides total
tons by total round-trip kilometers, round-trip km being twice the one-way
distance per event, summed; the two computations are independent. -/
theorem transport_one_way_vs_round_trip (cfg : Config) (load nDemand d : ℚ)
    (dist : ℕ → ℕ → Option ℚ) (sol : List DeliveryEvent) :
    netScore cfg load nDemand d = netScore cfg load nDemand 0 - d * cfg.transportFactor ∧
    totalRoundTripKm dist sol
      = 2 * (sol.map fun e => ((dist e.stpId e.farmId).getD 0)).sum ∧
    (0 < totalRoundTripKm dist sol →
      logisticsEfficiency dist sol = totalTons sol / totalRoundTripKm dist sol) := by
  refine ⟨?_, ?_, ?_⟩
  · rw [netScore, netScore]; ring
  · rw [totalRoundTripKm, List.sum_map_mul_right, mul_comm]
  · intro h; rw [logisticsEfficiency, if_pos h]

/-- Witness for C7 at a concrete configuration, score input and log. -/
theorem transport_one_way_vs_round_trip_witness :
    netScore cfgWit 10 100 3 = netScore cfgWit 10 100 0 - 3 * cfgWit.transportFactor ∧
    totalRoundTripKm (fun _ _ => some 1) [⟨0, 0, 0, 10⟩]
      = 2 * (([⟨0, 0, 0, 10⟩] : List DeliveryEvent).map
          fun e => (((fun _ _ => some 1 : ℕ → ℕ → Option ℚ) e.stpId e.farmId).getD 0)).sum ∧
    (0 < totalRoundTripKm (fun _ _ => some 1) [⟨0, 0, 0, 10⟩] →
      logisticsEfficiency (fun _ _ => some 1) [⟨0, 0, 0, 10⟩]
        = totalTons [⟨0, 0, 0, 10⟩] / totalRoundTripKm (fun _ _ => some 1) [⟨0, 0, 0, 10⟩]) :=
  transport_one_way_vs_round_trip cfgWit 10 100 3 (fun _ _ => some 1) [⟨0, 0, 0, 10⟩]

/-- Claim C10: a solution row whose (plant, farm) pair is missing from the
distance matrix is replayed with distance defaulted to 0 km, so it adds
nothing to transport emission or round-trip kilometers while its tons still
count toward the delivered total. -/
theorem missing_distance_counts_zero (cfg : Config) (dist : ℕ → ℕ → Option ℚ)
    (sol : List DeliveryEvent) (e : DeliveryEvent)
    (h : dist e.stpId e.farmId = none) :
    moveTransport cfg dist e = 0 ∧
    totalRoundTripKm dist (sol ++ [e]) = totalRoundTripKm dist sol ∧
    totalTons (sol ++ [e]) = totalTons sol + e.tons := by
  refine ⟨?_, ?_, ?_⟩ <;> simp [moveTransport, totalRoundTripKm, totalTons, h]

/-- Witness for C10: an event with no distance entry at all. -/
theorem missing_distance_counts_zero_witness :
    moveTransport cfgWit (fun _ _ => none) ⟨0, 0, 0, 3⟩ = 0 ∧
    totalRoundTripKm (fun _ _ => none) ([] ++ [⟨0, 0, 0, 3⟩])
      = totalRoundTripKm (fun _ _ => none) [] ∧
    totalTons ([] ++ [⟨0, 0, 0, 3⟩]) = totalTons [] + (3 : ℚ) :=
  missing_distance_counts_zero cfgWit (fun _ _ => none) [] ⟨0, 0, 0, 3⟩ rfl

def cfgC2 : Config :=
  { truckCapacity := 10, nContent := 0, overflowPenalty := 0,
    offsetCredit := 0, seqCredit := 1, transportFactor := 0, leachingRate := 0 }

/-- Claim C2 counterexample: with the configured sequestration rate set to 1
per kg instead of 0.2, the engine's score (200 for a 1-ton package) differs
from the claim's configured-rate formula (1000), because the source
hardcodes `credits_seq = package_tons * 1000 * 0.2` and never uses the
config-based `credit` variable in `net_score`. -/
theorem netScore_ne_configured_rate :
    netScore cfgC2 1 0 0 ≠ netScoreSpec cfgC2 1 0 0 := by
  norm_num [netScore, netScoreSpec, usefulN, excessN, packageTons, cfgC2]

/-- Claim C2 (amended): the candidate score equals credit minus transport
cost minus leaching cost, but with the sequestration term hardcoded at 0.2
per kg of biosolid; it differs from the configured-rate formula by exactly
`package_tons * 1000 * (0.2 - configured rate)`, vanishing iff the
ConfigStore rate is 0.2. -/
theorem netScore_hardcoded_seq_rate (cfg : Config) (load nDemand d : ℚ) :
    netScore cfg load nDemand d - netScoreSpec cfg load nDemand d
      = packageTons cfg load * 1000 * (1/5 - cfg.seqCredit) := by
  rw [netScore, netScoreSpec]; ring

/-- Claim C1 counterexample: one plant (daily output 10, capacity 5), no
farms, day 0.  After `_process_day` the engine's ledger holds 10 tons,
strictly above the 5-ton capacity: the engine never clamps storage (and
charges no penalty); only the metrics replay does. -/
theorem engine_storage_not_clamped :
    ¬ (processDay cfgWit [⟨0, 10, 5⟩] [] (fun _ _ => none) (fun _ => none)
        (fun _ => 0) 0 (fun _ => 0) []).storage 0 ≤ 5 := by
  norm_num [processDay, replenish, dispatchLogic, dispatchWalk, buildCandidates,
    validFarmsOf, statusOf, Function.update]

lemma clamp_eq_min (s m : ℚ) : (if m < s then m else s) = min s m := by
  rcases le_or_lt s m with h | h
  · rw [if_neg (not_lt.mpr h), min_eq_left h]
  · rw [if_pos h, min_eq_right h.le]

lemma overflowClamp_storage_other (cfg : Config) (stps : List Stp)
    (storage : ℕ → ℚ) (acc : ℚ) (r : ℕ) (hr : r ∉ stps.map Stp.stpId) :
    (overflowClamp cfg stps storage acc).1 r = storage r := by
  induction stps generalizing storage acc with
  | nil => rfl
  | cons q rest ih =>
    rw [List.map_cons, List.mem_cons] at hr
    push_neg at hr
    rw [overflowClamp, List.foldl_cons]
    split_ifs with h
    · rw [← overflowClamp, ih _ _ hr.2, Function.update_noteq hr.1]
    · rw [← overflowClamp, ih _ _ hr.2]

lemma overflowClamp_storage_mem (cfg : Config) (stps : List Stp)
    (storage : ℕ → ℚ) (acc : ℚ) (p : Stp) (hp : p ∈ stps)
    (hnd : (stps.map Stp.stpId).Nodup) :
    (overflowClamp cfg stps storage acc).1 p.stpId
      = min (storage p.stpId) p.storageMax := by
  induction stps generalizing storage acc with
  | nil => cases hp
  | cons q rest ih =>
    rw [List.map_cons, List.nodup_cons] at hnd
    rw [overflowClamp, List.foldl_cons]
    rcases List.mem_cons.mp hp with hpq | hpr
    · subst hpq
      split_ifs with h
      · rw [← overflowClamp, overflowClamp_storage_other _ _ _ _ _ hnd.1,
          Function.update_same, min_eq_right h.le]
      · rw [← overflowClamp, overflowClamp_storage_other _ _ _ _ _ hnd.1,
          min_eq_left (not_lt.mp h)]
    · have hne : q.stpId ≠ p.stpId := by
        intro hid
        exact hnd.1 (hid ▸ List.mem_map_of_mem Stp.stpId hpr)
      split_ifs with h
      · rw [← overflowClamp, ih _ _ hpr hnd.2, Function.update_noteq hne.symm]
      · rw [← overflowClamp, ih _ _ hpr hnd.2]

lemma overflowClamp_penalty (cfg : Config) (stps : List Stp)
    (storage : ℕ → ℚ) (acc : ℚ) (hnd : (stps.map Stp.stpId).Nodup) :
    (overflowClamp cfg stps storage acc).2
      = acc + (stps.map fun q =>
          max 0 (storage q.stpId - q.storageMax) * cfg.overflowPenalty).sum := by
  induction stps generalizing storage acc with
  | nil => simp [overflowClamp]
  | cons q rest ih =>
    rw [List.map_cons, List.nodup_cons] at hnd
    have hmap : ∀ st : ℕ → ℚ, (∀ r ∈ rest, st r.stpId = storage r.stpId) →
        (rest.map fun r => max 0 (st r.stpId - r.storageMax) * cfg.overflowPenalty)
          = rest.map fun r => max 0 (storage r.stpId - r.storageMax) * cfg.overflowPenalty :=
      fun st hst => List.map_congr_left fun r hr => by rw [hst r hr]
    rw [overflowClamp, List.foldl_cons, List.map_cons, List.sum_cons]
    split_ifs with h
    · rw [← overflowClamp, ih _ _ hnd.2]
      rw [hmap _ fun r hr => Function.update_noteq
        (fun hid : r.stpId = q.stpId =>
          hnd.1 (hid ▸ List.mem_map_of_mem Stp.stpId hr)) _ _]
      rw [max_eq_right (by linarith : (0:ℚ) ≤ storage q.stpId - q.storageMax)]
      ring
    · rw [← overflowClamp, ih _ _ hnd.2,
        max_eq_left (by have := not_lt.mp h; linarith :
          storage q.stpId - q.storageMax ≤ 0)]
      ring

/-- Claim C1 (amended): the daily clamp-and-penalize step lives in the
MetricsReconciler's replay (calculate_metrics), not in the DispatchEngine,
whose ledger is never clamped.  After each replayed day the re-simulated
inventory of every plant equals the pre-clamp value clamped to capacity
(hence is ≤ capacity), and the day's overflow-penalty increment is the
per-unit rate charged on each plant's pre-clamp excess. -/
theorem reconDay_clamps (cfg : Config) (stps : List Stp)
    (dist : ℕ → ℕ → Option ℚ) (demand : ℕ → ℚ) (moves : List DeliveryEvent)
    (storage : ℕ → ℚ) (t : Totals) (hnd : (stps.map Stp.stpId).Nodup)
    (p : Stp) (hp : p ∈ stps) :
    (reconDay cfg stps dist demand moves storage t).1 p.stpId
        = min ((reconPreClamp cfg stps dist demand moves storage t).1 p.stpId)
            p.storageMax ∧
    (reconDay cfg stps dist demand moves storage t).1 p.stpId ≤ p.storageMax ∧
    (reconDay cfg stps dist demand moves storage t).2.overflow
        = t.overflow + (stps.map fun q =>
            max 0 ((reconPreClamp cfg stps dist demand moves storage t).1 q.stpId
              - q.storageMax) * cfg.overflowPenalty).sum := by
  have h1 : (reconDay cfg stps dist demand moves storage t).1 p.stpId
      = min ((reconPreClamp cfg stps dist demand moves storage t).1 p.stpId)
          p.storageMax :=
    overflowClamp_storage_mem cfg stps _ _ p hp hnd
  refine ⟨h1, ?_, ?_⟩
  · rw [h1]; exact min_le_right _ _
  · exact overflowClamp_penalty cfg stps _ t.overflow hnd

def stpsWit : List Stp := [⟨0, 10, 5⟩]

def totalsWit : Totals := ⟨0, 0, 0, 0, 0⟩

/-- Witness for the amended C1 theorem at one concrete plant and day. -/
theorem reconDay_clamps_witness :
    (reconDay cfgWit stpsWit (fun _ _ => none) (fun _ => 0) [] (fun _ => 0)
        totalsWit).1 (⟨0, 10, 5⟩ : Stp).stpId
        = min ((reconPreClamp cfgWit stpsWit (fun _ _ => none) (fun _ => 0) []
            (fun _ => 0) totalsWit).1 (⟨0, 10, 5⟩ : Stp).stpId)
            (⟨0, 10, 5⟩ : Stp).storageMax ∧
    (reconDay cfgWit stpsWit (fun _ _ => none) (fun _ => 0) [] (fun _ => 0)
        totalsWit).1 (⟨0, 10, 5⟩ : Stp).stpId ≤ (⟨0, 10, 5⟩ : Stp).storageMax ∧
    (reconDay cfgWit stpsWit (fun _ _ => none) (fun _ => 0) [] (fun _ => 0)
        totalsWit).2.overflow
        = totalsWit.overflow + (stpsWit.map fun q =>
            max 0 ((reconPreClamp cfgWit stpsWit (fun _ _ => none) (fun _ => 0)
              [] (fun _ => 0) totalsWit).1 q.stpId
              - q.storageMax) * cfgWit.overflowPenalty).sum :=
  reconDay_clamps cfgWit stpsWit (fun _ _ => none) (fun _ => 0) [] (fun _ => 0)
    totalsWit (by decide) ⟨0, 10, 5⟩ (by simp [stpsWit])

lemma foldl_triple_add (g1 g2 g3 : ℕ → ℚ) :
    ∀ (l : List ℕ) (a b c : ℚ),
      l.foldl (fun acc f => (acc.1 + g1 f, acc.2.1 + g2 f, acc.2.2 + g3 f)) (a, b, c)
        = (a + (l.map g1).sum, b + (l.map g2).sum, c + (l.map g3).sum)
  | [], a, b, c => by simp
  | f :: t, a, b, c => by
    rw [List.foldl_cons, foldl_triple_add g1 g2 g3 t]
    simp [add_assoc]

lemma sum_map_dedup_eq_sum_toFinset (l : List ℕ) (g : ℕ → ℚ) :
    (l.dedup.map g).sum = ∑ f in l.toFinset, g f := by
  have h : l.toFinset = l.dedup.toFinset :=
    (List.toFinset.ext fun _ => List.mem_dedup).symm
  rw [h]
  exact (List.sum_toFinset g (List.nodup_dedup l)).symm

/-- Claim C9: the reconciler scores each (farm, day) by first summing all of
that day's deliveries to the farm, then comparing the total's nitrogen
against the day's original (undecremented) demand:
`useful_n = min(total N, demand)`, `excess_n = max(0, total N - 1.1*demand)`
— the aggregate-first formula, not the engine's residual walk. -/
theorem dayGains_aggregate_first (cfg : Config) (demand : ℕ → ℚ)
    (moves : List DeliveryEvent) :
    dayGains cfg demand moves = aggregateFirstGains cfg demand moves := by
  simp only [dayGains]
  rw [foldl_triple_add
    (fun f => min (farmDayTons moves f * cfg.nContent) (demand f) * cfg.offsetCredit)
    (fun f => farmDayTons moves f * 1000 * cfg.seqCredit)
    (fun f => max 0 (farmDayTons moves f * cfg.nContent - demand f * (11/10))
      * cfg.leachingRate)]
  rw [aggregateFirstGains]
  refine Prod.ext ?_ (Prod.ext ?_ ?_) <;>
    simp [sum_map_dedup_eq_sum_toFinset]

lemma dispatchStep_storage (cfg : Config) (day sid g : ℕ) (s : EngineState) :
    (dispatchStep cfg day sid g s).storage
      = Function.update s.storage sid
          (s.storage sid - min cfg.truckCapacity (s.storage sid)) := rfl

lemma dispatchStep_residual (cfg : Config) (day sid g : ℕ) (s : EngineState) :
    (dispatchStep cfg day sid g s).residual
      = Function.update s.residual g
          (max 0 (s.residual g - min cfg.truckCapacity (s.storage sid) * cfg.nContent)) := rfl

lemma dispatchStep_events (cfg : Config) (day sid g : ℕ) (s : EngineState) :
    (dispatchStep cfg day sid g s).events
      = s.events ++ [⟨day, sid, g, min cfg.truckCapacity (s.storage sid)⟩] := rfl

lemma farmDayTons_append (a b : List DeliveryEvent) (f : ℕ) :
    farmDayTons (a ++ b) f = farmDayTons a f + farmDayTons b f := by
  simp [farmDayTons, List.filter_append]

lemma farmDayTons_nonneg (a : List DeliveryEvent) (f : ℕ)
    (h : ∀ e ∈ a, 0 ≤ e.tons) : 0 ≤ farmDayTons a f := by
  refine List.sum_nonneg ?_
  intro x hx
  rcases List.mem_map.mp hx with ⟨e, he, rfl⟩
  exact h e (List.mem_of_mem_filter he)

/-- Master specification of the greedy walk: events are only appended, each
new event carries this day and plant and ships `min(capacity, σ)` tons for
the positive inventory `σ` held at its dispatch; other plants' storage is
untouched; nonnegative storage is preserved. -/
lemma dispatchWalk_spec (cfg : Config) (day sid : ℕ) (mx : ℚ) :
    ∀ (cs : List Candidate) (s : EngineState), ∃ t : List DeliveryEvent,
      (dispatchWalk cfg day sid mx cs s).events = s.events ++ t ∧
      (∀ e ∈ t, e.day = day ∧ e.stpId = sid ∧
        ∃ σ : ℚ, 0 < σ ∧ e.tons = min cfg.truckCapacity σ) ∧
      (∀ q, q ≠ sid → (dispatchWalk cfg day sid mx cs s).storage q = s.storage q) ∧
      ((∀ q, 0 ≤ s.storage q) → ∀ q, 0 ≤ (dispatchWalk cfg day sid mx cs s).storage q)
  | [], s => ⟨[], by simp [dispatchWalk], by simp, fun q _ => rfl, fun h => h⟩
  | c :: rest, s => by
    simp only [dispatchWalk]
    split_ifs with h1 h2
    · exact ⟨[], by simp, by simp, fun q _ => rfl, fun h => h⟩
    · exact dispatchWalk_spec cfg day sid mx rest s
    · obtain ⟨t, ht, hprop, hother, hnn⟩ :=
        dispatchWalk_spec cfg day sid mx rest (dispatchStep cfg day sid c.farmId s)
      refine ⟨⟨day, sid, c.farmId, min cfg.truckCapacity (s.storage sid)⟩ :: t, ?_, ?_, ?_, ?_⟩
      · rw [ht, dispatchStep_events]
        simp
      · intro e he
        rcases List.mem_cons.mp he with rfl | he
        · exact ⟨rfl, rfl, s.storage sid, lt_of_not_le h1, rfl⟩
        · exact hprop e he
      · intro q hq
        rw [hother q hq, dispatchStep_storage]
        exact Function.update_noteq hq _ _
      · intro h q
        refine hnn ?_ q
        intro r
        rw [dispatchStep_storage]
        by_cases hr : r = sid
        · subst hr
          rw [Function.update_same]
          exact sub_nonneg.mpr (min_le_right _ _)
        · rw [Function.update_noteq hr _ _]
          exact h r

lemma dispatchLogic_spec (cfg : Config) (dist : ℕ → ℕ → Option ℚ) (day : ℕ)
    (stp : StpStatus) (valid : List ℕ) (s : EngineState) :
    ∃ t : List DeliveryEvent,
      (dispatchLogic cfg dist day stp valid s).events = s.events ++ t ∧
      (∀ e ∈ t, e.day = day ∧ e.stpId = stp.stpId ∧
        ∃ σ : ℚ, 0 < σ ∧ e.tons = min cfg.truckCapacity σ) ∧
      (∀ q, q ≠ stp.stpId →
        (dispatchLogic cfg dist day stp valid s).storage q = s.storage q) ∧
      ((∀ q, 0 ≤ s.storage q) →
        ∀ q, 0 ≤ (dispatchLogic cfg dist day stp valid s).storage q) := by
  rw [dispatchLogic]
  split_ifs with h
  · exact ⟨[], by simp, by simp, fun q _ => rfl, fun h => h⟩
  · exact dispatchWalk_spec cfg day stp.stpId stp.maxS _ s

lemma foldDispatch_spec (cfg : Config) (dist : ℕ → ℕ → Option ℚ) (day : ℕ)
    (valid : List ℕ) :
    ∀ (L : List StpStatus) (s : EngineState), ∃ t : List DeliveryEvent,
      (L.foldl (fun s stp => dispatchLogic cfg dist day stp valid s) s).events
        = s.events ++ t ∧
      (∀ e ∈ t, e.day = day ∧
        ∃ σ : ℚ, 0 < σ ∧ e.tons = min cfg.truckCapacity σ) ∧
      ((∀ q, 0 ≤ s.storage q) →
        ∀ q, 0 ≤ (L.foldl (fun s stp => dispatchLogic cfg dist day stp valid s) s).storage q)
  | [], s => ⟨[], by simp, by simp, fun h => h⟩
  | stp :: L, s => by
    rw [List.foldl_cons]
    obtain ⟨t1, ht1, hp1, _, hnn1⟩ := dispatchLogic_spec cfg dist day stp valid s
    obtain ⟨t2, ht2, hp2, hnn2⟩ :=
      foldDispatch_spec cfg dist day valid L (dispatchLogic cfg dist day stp valid s)
    refine ⟨t1 ++ t2, ?_, ?_, ?_⟩
    · rw [ht2, ht1, List.append_assoc]
    · intro e he
      rcases List.mem_append.mp he with he | he
      · exact ⟨(hp1 e he).1, (hp1 e he).2.2⟩
      · exact hp2 e he
    · intro h
      exact hnn2 (hnn1 h)

lemma replenish_nonneg (stps : List Stp) :
    ∀ (storage : ℕ → ℚ), (∀ p ∈ stps, 0 ≤ p.dailyOutput) →
      (∀ q, 0 ≤ storage q) → ∀ q, 0 ≤ replenish stps storage q := by
  induction stps with
  | nil => exact fun storage _ h => h
  | cons p rest ih =>
    intro storage hout h
    rw [replenish, List.foldl_cons, ← replenish]
    refine ih _ (fun r hr => hout r (List.mem_cons_of_mem p hr)) ?_
    intro q
    by_cases hq : q = p.stpId
    · subst hq
      rw [Function.update_same]
      exact add_nonneg (h p.stpId) (hout p (List.mem_cons_self p rest))
    · rw [Function.update_noteq hq _ _]
      exact h q

lemma processDay_spec (cfg : Config) (stps : List Stp) (farmZone : List (ℕ × ℕ))
    (dist : ℕ → ℕ → Option ℚ) (rainLock : ℕ → Option Bool) (demand : ℕ → ℚ)
    (day : ℕ) (storage : ℕ → ℚ) (events : List DeliveryEvent) :
    ∃ t : List DeliveryEvent,
      (processDay cfg stps farmZone dist rainLock demand day storage events).events
        = events ++ t ∧
      (∀ e ∈ t, e.day = day ∧
        ∃ σ : ℚ, 0 < σ ∧ e.tons = min cfg.truckCapacity σ) ∧
      ((∀ p ∈ stps, 0 ≤ p.dailyOutput) → (∀ q, 0 ≤ storage q) →
        ∀ q, 0 ≤ (processDay cfg stps farmZone dist rainLock demand day storage
          events).storage q) := by
  obtain ⟨t, ht, hp, hnn⟩ := foldDispatch_spec cfg dist day
    (validFarmsOf farmZone rainLock)
    ((stps.map (statusOf (replenish stps storage))).mergeSort urgencyLe)
    { storage := replenish stps storage, residual := demand, events := events }
  exact ⟨t, ht, hp, fun hout h => hnn (replenish_nonneg stps storage hout h)⟩

lemma solveDays_spec (cfg : Config) (inp : YearInput)
    (hout : ∀ p ∈ inp.stps, 0 ≤ p.dailyOutput) :
    ∀ (days : List ℕ) (st : (ℕ → ℚ) × List DeliveryEvent),
      (∀ q, 0 ≤ st.1 q) →
      (∀ e ∈ st.2, ∃ σ : ℚ, 0 < σ ∧ e.tons = min cfg.truckCapacity σ) →
      (∀ q, 0 ≤ (days.foldl (fun st d =>
          let s := processDay cfg inp.stps inp.farmZone inp.dist (inp.rainLock d)
            (inp.demandOf d) d st.1 st.2
          (s.storage, s.events)) st).1 q) ∧
      (∀ e ∈ (days.foldl (fun st d =>
          let s := processDay cfg inp.stps inp.farmZone inp.dist (inp.rainLock d)
            (inp.demandOf d) d st.1 st.2
          (s.storage, s.events)) st).2,
        ∃ σ : ℚ, 0 < σ ∧ e.tons = min cfg.truckCapacity σ)
  | [], st => fun h1 h2 => ⟨h1, h2⟩
  | d :: days, st => by
    intro h1 h2
    rw [List.foldl_cons]
    obtain ⟨t, ht, hp, hnn⟩ := processDay_spec cfg inp.stps inp.farmZone inp.dist
      (inp.rainLock d) (inp.demandOf d) d st.1 st.2
    refine solveDays_spec cfg inp hout days _ ?_ ?_
    · exact hnn hout h1
    · intro e he
      have he2 : e ∈ (processDay cfg inp.stps inp.farmZone inp.dist (inp.rainLock d)
          (inp.demandOf d) d st.1 st.2).events := he
      rw [ht] at he2
      rcases List.mem_append.mp he2 with he3 | he3
      · exact h2 e he3
      · exact (hp e he3).2

lemma max0_sub_chain (a b : ℚ) (hb : 0 ≤ b) :
    max 0 (max 0 a - b) = max 0 (a - b) := by
  rcases le_total a 0 with h | h
  · rw [max_eq_left h, zero_sub, max_eq_left (neg_nonpos.mpr hb),
      max_eq_left (by linarith : a - b ≤ 0)]
  · rw [max_eq_right h]

lemma farmDayTons_singleton (ev : DeliveryEvent) (f : ℕ) :
    farmDayTons [ev] f = if ev.farmId = f then ev.tons else 0 := by
  by_cases h : ev.farmId = f <;> simp [farmDayTons, h]

/-- The residual map of the walk tracks `max 0 (original - delivered N)`
relative to the day's events appended so far. -/
lemma dispatchWalk_residual_inv (cfg : Config) (day sid : ℕ) (mx : ℚ)
    (hcap : 0 ≤ cfg.truckCapacity) (hn : 0 ≤ cfg.nContent) (D : ℕ → ℚ) (n0 : ℕ) :
    ∀ (cs : List Candidate) (s : EngineState), n0 ≤ s.events.length →
      (∀ f, s.residual f
        = max 0 (D f - farmDayTons (s.events.drop n0) f * cfg.nContent)) →
      n0 ≤ (dispatchWalk cfg day sid mx cs s).events.length ∧
      ∀ f, (dispatchWalk cfg day sid mx cs s).residual f
        = max 0 (D f - farmDayTons ((dispatchWalk cfg day sid mx cs s).events.drop n0)
            f * cfg.nContent)
  | [], s => fun hlen hres => ⟨hlen, hres⟩
  | c :: rest, s => by
    intro hlen hres
    simp only [dispatchWalk]
    split_ifs with h1 h2
    · exact ⟨hlen, hres⟩
    · exact dispatchWalk_residual_inv cfg day sid mx hcap hn D n0 rest s hlen hres
    · have hship : 0 ≤ min cfg.truckCapacity (s.storage sid) :=
        le_min hcap (le_of_lt (lt_of_not_le h1))
      refine dispatchWalk_residual_inv cfg day sid mx hcap hn D n0 rest _ ?_ ?_
      · rw [dispatchStep_events, List.length_append]
        exact le_trans hlen (Nat.le_add_right _ _)
      · intro f
        rw [dispatchStep_residual, dispatchStep_events,
          List.drop_append_of_le_length hlen, farmDayTons_append,
          farmDayTons_singleton]
        by_cases hf : f = c.farmId
        · subst hf
          rw [Function.update_same, hres c.farmId, if_pos rfl,
            max0_sub_chain _ _ (mul_nonneg hship hn)]
          congr 1
          ring
        · rw [Function.update_noteq hf _ _, hres f,
            if_neg (fun hgf => hf hgf.symm)]
          congr 1
          ring

lemma dispatchLogic_residual_inv (cfg : Config) (dist : ℕ → ℕ → Option ℚ)
    (day : ℕ) (stp : StpStatus) (valid : List ℕ) (s : EngineState)
    (hcap : 0 ≤ cfg.truckCapacity) (hn : 0 ≤ cfg.nContent) (D : ℕ → ℚ) (n0 : ℕ)
    (hlen : n0 ≤ s.events.length)
    (hres : ∀ f, s.residual f
      = max 0 (D f - farmDayTons (s.events.drop n0) f * cfg.nContent)) :
    n0 ≤ (dispatchLogic cfg dist day stp valid s).events.length ∧
    ∀ f, (dispatchLogic cfg dist day stp valid s).residual f
      = max 0 (D f - farmDayTons ((dispatchLogic cfg dist day stp valid s).events.drop n0)
          f * cfg.nContent) := by
  rw [dispatchLogic]
  split_ifs with h
  · exact ⟨hlen, hres⟩
  · exact dispatchWalk_residual_inv cfg day stp.stpId stp.maxS hcap hn D n0 _ s hlen hres

lemma foldDispatch_residual_inv (cfg : Config) (dist : ℕ → ℕ → Option ℚ)
    (day : ℕ) (valid : List ℕ) (hcap : 0 ≤ cfg.truckCapacity)
    (hn : 0 ≤ cfg.nContent) (D : ℕ → ℚ) (n0 : ℕ) :
    ∀ (L : List StpStatus) (s : EngineState), n0 ≤ s.events.length →
      (∀ f, s.residual f
        = max 0 (D f - farmDayTons (s.events.drop n0) f * cfg.nContent)) →
      n0 ≤ (L.foldl (fun s stp => dispatchLogic cfg dist day stp valid s) s).events.length ∧
      ∀ f, (L.foldl (fun s stp => dispatchLogic cfg dist day stp valid s) s).residual f
        = max 0 (D f - farmDayTons
            ((L.foldl (fun s stp => dispatchLogic cfg dist day stp valid s) s).events.drop n0)
            f * cfg.nContent)
  | [], s => fun hlen hres => ⟨hlen, hres⟩
  | stp :: L, s => by
    intro hlen hres
    rw [List.foldl_cons]
    obtain ⟨hlen1, hres1⟩ :=
      dispatchLogic_residual_inv cfg dist day stp valid s hcap hn D n0 hlen hres
    exact foldDispatch_residual_inv cfg dist day valid hcap hn D n0 L _ hlen1 hres1

/-- Claim C5: within a single simulated day, after all dispatches the
engine's residual demand for every farm equals
`max 0 (original demand - nitrogen delivered to that farm this day)`; it is
nonnegative and bounded by the original demand (the same invariant holds
after every intermediate dispatch, by `dispatchWalk_residual_inv`); the
underlying per-day demand map is an unchanged input of which the engine's
residual is a separate copy. -/
theorem processDay_residual_tracking (cfg : Config) (stps : List Stp)
    (farmZone : List (ℕ × ℕ)) (dist : ℕ → ℕ → Option ℚ)
    (rainLock : ℕ → Option Bool) (demand : ℕ → ℚ) (day : ℕ)
    (storage : ℕ → ℚ) (events : List DeliveryEvent)
    (hcap : 0 ≤ cfg.truckCapacity) (hn : 0 ≤ cfg.nContent)
    (hdem : ∀ f, 0 ≤ demand f) :
    ∀ f, (processDay cfg stps farmZone dist rainLock demand day storage
          events).residual f
        = max 0 (demand f - farmDayTons
            ((processDay cfg stps farmZone dist rainLock demand day storage
              events).events.drop events.length) f * cfg.nContent) ∧
      0 ≤ (processDay cfg stps farmZone dist rainLock demand day storage
          events).residual f ∧
      (processDay cfg stps farmZone dist rainLock demand day storage
          events).residual f ≤ demand f := by
  intro f
  obtain ⟨hlen, hres⟩ := foldDispatch_residual_inv cfg dist day
    (validFarmsOf farmZone rainLock) hcap hn demand events.length
    ((stps.map (statusOf (replenish stps storage))).mergeSort urgencyLe)
    { storage := replenish stps storage, residual := demand, events := events }
    (le_refl _) (by
      intro g
      simp only [List.drop_length]
      rw [farmDayTons, List.filter_nil, List.map_nil, List.sum_nil, zero_mul,
        sub_zero, max_eq_right (hdem g)])
  have hform : (processDay cfg stps farmZone dist rainLock demand day storage
        events).residual f
      = max 0 (demand f - farmDayTons
          ((processDay cfg stps farmZone dist rainLock demand day storage
            events).events.drop events.length) f * cfg.nContent) := hres f
  have htnn : 0 ≤ farmDayTons ((processDay cfg stps farmZone dist rainLock demand
      day storage events).events.drop events.length) f := by
    obtain ⟨t, ht, hp, _⟩ := processDay_spec cfg stps farmZone dist rainLock
      demand day storage events
    rw [ht, List.drop_left]
    refine farmDayTons_nonneg t f ?_
    intro e he
    obtain ⟨_, σ, hσ, htons⟩ := hp e he
    rw [htons]
    exact le_min hcap hσ.le
  refine ⟨hform, ?_, ?_⟩
  · rw [hform]; exact le_max_left _ _
  · rw [hform]
    refine max_le (hdem f) ?_
    have := mul_nonneg htnn hn
    linarith

/-- Witness for C5 at the concrete one-plant, one-farm input, at farm 0. -/
theorem processDay_residual_tracking_witness :
    (processDay cfgWit inpWit.stps inpWit.farmZone inpWit.dist
          (inpWit.rainLock 0) (inpWit.demandOf 0) 0 (fun _ => 0) []).residual 0
        = max 0 (inpWit.demandOf 0 0 - farmDayTons
            ((processDay cfgWit inpWit.stps inpWit.farmZone inpWit.dist
              (inpWit.rainLock 0) (inpWit.demandOf 0) 0 (fun _ => 0)
              []).events.drop (List.length ([] : List DeliveryEvent))) 0
            * cfgWit.nContent) ∧
      0 ≤ (processDay cfgWit inpWit.stps inpWit.farmZone inpWit.dist
          (inpWit.rainLock 0) (inpWit.demandOf 0) 0 (fun _ => 0) []).residual 0 ∧
      (processDay cfgWit inpWit.stps inpWit.farmZone inpWit.dist
          (inpWit.rainLock 0) (inpWit.demandOf 0) 0 (fun _ => 0) []).residual 0
        ≤ inpWit.demandOf 0 0 :=
  processDay_residual_tracking cfgWit inpWit.stps inpWit.farmZone inpWit.dist
    (inpWit.rainLock 0) (inpWit.demandOf 0) 0 (fun _ => 0) []
    (by norm_num [cfgWit]) (by norm_num [cfgWit]) (by norm_num [inpWit]) 0

lemma buildCandidates_ne_nil (cfg : Config) (dist : ℕ → ℕ → Option ℚ)
    (stpId : ℕ) (load : ℚ) (validFarms : List ℕ) (residual : ℕ → ℚ)
    (h : ∃ f ∈ validFarms, (dist stpId f).isSome) :
    buildCandidates cfg dist stpId load validFarms residual ≠ [] := by
  obtain ⟨f, hf, hsome⟩ := h
  intro hnil
  rw [buildCandidates] at hnil
  have h2 := List.filterMap_eq_nil_iff.mp hnil f hf
  rcases ho : dist stpId f with _ | d
  · simp [ho] at hsome
  · rw [ho] at h2
    simp at h2

lemma dispatchLogic_urgent (cfg : Config) (dist : ℕ → ℕ → Option ℚ) (day : ℕ)
    (stp : StpStatus) (valid : List ℕ) (s : EngineState)
    (hcur : stp.current = s.storage stp.stpId)
    (hmax : 0 ≤ stp.maxS) (hurg : stp.maxS < s.storage stp.stpId)
    (hfarm : ∃ f ∈ valid, (dist stp.stpId f).isSome) :
    s.events.countP (fun e => e.stpId == stp.stpId)
      < (dispatchLogic cfg dist day stp valid s).events.countP
          (fun e => e.stpId == stp.stpId) := by
  have hpos : 0 < s.storage stp.stpId := lt_of_le_of_lt hmax hurg
  rw [dispatchLogic, if_neg (by rw [hcur]; exact not_le.mpr hpos)]
  have hne : (buildCandidates cfg dist stp.stpId stp.current valid s.residual).mergeSort
      (fun a b => decide (b.score ≤ a.score)) ≠ [] := by
    intro hnil
    have hlen := congrArg List.length hnil
    rw [List.length_mergeSort] at hlen
    exact buildCandidates_ne_nil cfg dist stp.stpId stp.current valid s.residual hfarm
      (List.length_eq_zero.mp hlen)
  obtain ⟨c, rest, hc⟩ := List.exists_cons_of_ne_nil hne
  rw [hc]
  simp only [dispatchWalk]
  rw [if_neg (not_le.mpr hpos), if_neg (fun hcontra => hcontra.1 hurg)]
  obtain ⟨t, ht, _, _, _⟩ := dispatchWalk_spec cfg day stp.stpId stp.maxS rest
    (dispatchStep cfg day stp.stpId c.farmId s)
  rw [ht, dispatchStep_events]
  simp only [List.countP_append, List.countP_cons, List.countP_nil]
  simp only [beq_self_eq_true, if_true]
  omega

lemma foldDispatch_countP_le (cfg : Config) (dist : ℕ → ℕ → Option ℚ) (day : ℕ)
    (valid : List ℕ) (L : List StpStatus) (s : EngineState)
    (pr : DeliveryEvent → Bool) :
    s.events.countP pr
      ≤ (L.foldl (fun s stp => dispatchLogic cfg dist day stp valid s) s).events.countP pr := by
  obtain ⟨t, ht, _, _⟩ := foldDispatch_spec cfg dist day valid L s
  rw [ht, List.countP_append]
  exact Nat.le_add_right _ _

lemma foldDispatch_storage_other (cfg : Config) (dist : ℕ → ℕ → Option ℚ)
    (day : ℕ) (valid : List ℕ) :
    ∀ (L : List StpStatus) (s : EngineState) (q : ℕ),
      (∀ st ∈ L, st.stpId ≠ q) →
      (L.foldl (fun s stp => dispatchLogic cfg dist day stp valid s) s).storage q
        = s.storage q
  | [], _, _ => fun _ => rfl
  | stp :: L, s, q => by
    intro h
    rw [List.foldl_cons,
      foldDispatch_storage_other cfg dist day valid L _ q
        (fun st hst => h st (List.mem_cons_of_mem _ hst))]
    obtain ⟨t, _, _, hother, _⟩ := dispatchLogic_spec cfg dist day stp valid s
    exact hother q fun hq => h stp (List.mem_cons_self _ _) hq.symm

/-- Claim C6: on any day, a plant whose post-replenish inventory strictly
exceeds its (nonnegative) storage capacity — i.e. with `excess > 0`, which
also makes its inventory positive — receives at least one dispatch that day
whenever some valid (non-rain-locked) farm with a distance entry exists,
regardless of whether any candidate's score is positive: urgency overrides
profitability. -/
theorem processDay_urgent_plant_dispatches (cfg : Config) (stps : List Stp)
    (farmZone : List (ℕ × ℕ)) (dist : ℕ → ℕ → Option ℚ)
    (rainLock : ℕ → Option Bool) (demand : ℕ → ℚ) (day : ℕ)
    (storage : ℕ → ℚ) (events : List DeliveryEvent) (p : Stp)
    (hp : p ∈ stps) (hnd : (stps.map Stp.stpId).Nodup)
    (hmax : 0 ≤ p.storageMax)
    (hexcess : p.storageMax < replenish stps storage p.stpId)
    (hfarm : ∃ f ∈ validFarmsOf farmZone rainLock, (dist p.stpId f).isSome) :
    events.countP (fun e => e.stpId == p.stpId)
      < (processDay cfg stps farmZone dist rainLock demand day storage
          events).events.countP (fun e => e.stpId == p.stpId) := by
  have hmem : statusOf (replenish stps storage) p
      ∈ (stps.map (statusOf (replenish stps storage))).mergeSort urgencyLe :=
    (List.mergeSort_perm _ _).mem_iff.mpr
      (List.mem_map_of_mem (statusOf (replenish stps storage)) hp)
  obtain ⟨l1, l2, hsplit⟩ := List.append_of_mem hmem
  have hndL : (((stps.map (statusOf (replenish stps storage))).mergeSort
      urgencyLe).map StpStatus.stpId).Nodup := by
    refine (((List.mergeSort_perm (stps.map (statusOf (replenish stps storage)))
      urgencyLe).map StpStatus.stpId).nodup_iff).mpr ?_
    rw [List.map_map]
    have hmaps : stps.map (StpStatus.stpId ∘ statusOf (replenish stps storage))
        = stps.map Stp.stpId := List.map_congr_left fun x _ => rfl
    rw [hmaps]
    exact hnd
  rw [hsplit, List.map_append, List.map_cons] at hndL
  obtain ⟨hn1, hn2, hdisj⟩ := List.nodup_append.mp hndL
  have hid : (statusOf (replenish stps storage) p).stpId = p.stpId := rfl
  have hl1 : ∀ st ∈ l1, st.stpId ≠ p.stpId := by
    intro st hst heq
    refine hdisj (List.mem_map_of_mem StpStatus.stpId hst) ?_
    rw [heq, ← hid]
    exact List.mem_cons_self _ _
  have hPD : processDay cfg stps farmZone dist rainLock demand day storage events
      = ((stps.map (statusOf (replenish stps storage))).mergeSort urgencyLe).foldl
          (fun s stp => dispatchLogic cfg dist day stp (validFarmsOf farmZone rainLock) s)
          { storage := replenish stps storage, residual := demand,
            events := events } := rfl
  rw [hPD, hsplit, List.foldl_append, List.foldl_cons]
  have hstor : (l1.foldl
        (fun s stp => dispatchLogic cfg dist day stp (validFarmsOf farmZone rainLock) s)
        { storage := replenish stps storage, residual := demand,
          events := events }).storage p.stpId
      = replenish stps storage p.stpId :=
    foldDispatch_storage_other cfg dist day (validFarmsOf farmZone rainLock) l1
      { storage := replenish stps storage, residual := demand, events := events }
      p.stpId hl1
  have h1 : events.countP (fun e => e.stpId == p.stpId)
      ≤ ((l1.foldl
          (fun s stp => dispatchLogic cfg dist day stp (validFarmsOf farmZone rainLock) s)
          { storage := replenish stps storage, residual := demand,
            events := events })).events.countP (fun e => e.stpId == p.stpId) :=
    foldDispatch_countP_le cfg dist day (validFarmsOf farmZone rainLock) l1
      { storage := replenish stps storage, residual := demand, events := events }
      (fun e => e.stpId == p.stpId)
  have h2 : ((l1.foldl
        (fun s stp => dispatchLogic cfg dist day stp (validFarmsOf farmZone rainLock) s)
        { storage := replenish stps storage, residual := demand,
          events := events })).events.countP (fun e => e.stpId == p.stpId)
      < (dispatchLogic cfg dist day (statusOf (replenish stps storage) p)
          (validFarmsOf farmZone rainLock)
          (l1.foldl
            (fun s stp => dispatchLogic cfg dist day stp (validFarmsOf farmZone rainLock) s)
            { storage := replenish stps storage, residual := demand,
              events := events })).events.countP (fun e => e.stpId == p.stpId) :=
    dispatchLogic_urgent cfg dist day (statusOf (replenish stps storage) p)
      (validFarmsOf farmZone rainLock) _ hstor.symm hmax
      (by
        show p.storageMax
            < (l1.foldl
                (fun s stp => dispatchLogic cfg dist day stp (validFarmsOf farmZone rainLock) s)
                { storage := replenish stps storage, residual := demand,
                  events := events }).storage p.stpId
        rw [hstor]
        exact hexcess) hfarm
  have h3 : (dispatchLogic cfg dist day (statusOf (replenish stps storage) p)
        (validFarmsOf farmZone rainLock)
        (l1.foldl
          (fun s stp => dispatchLogic cfg dist day stp (validFarmsOf farmZone rainLock) s)
          { storage := replenish stps storage, residual := demand,
            events := events })).events.countP (fun e => e.stpId == p.stpId)
      ≤ (l2.foldl
          (fun s stp => dispatchLogic cfg dist day stp (validFarmsOf farmZone rainLock) s)
          (dispatchLogic cfg dist day (statusOf (replenish stps storage) p)
            (validFarmsOf farmZone rainLock)
            (l1.foldl
              (fun s stp => dispatchLogic cfg dist day stp (validFarmsOf farmZone rainLock) s)
              { storage := replenish stps storage, residual := demand,
                events := events }))).events.countP (fun e => e.stpId == p.stpId) :=
    foldDispatch_countP_le cfg dist day (validFarmsOf farmZone rainLock) l2 _
      (fun e => e.stpId == p.stpId)
  exact lt_of_le_of_lt h1 (lt_of_lt_of_le h2 h3)

/-- Witness for C6: one plant 10 tons over a 5-ton capacity, one valid farm
with a distance entry, zero demand (so the candidate score is not relevant):
the day produces at least one dispatch from that plant. -/
theorem processDay_urgent_plant_dispatches_witness :
    ([] : List DeliveryEvent).countP (fun e => e.stpId == (⟨0, 10, 5⟩ : Stp).stpId)
      < (processDay cfgWit stpsWit [(7, 3)] (fun _ _ => some 2) (fun _ => none)
          (fun _ => 0) 0 (fun _ => 0) []).events.countP
          (fun e => e.stpId == (⟨0, 10, 5⟩ : Stp).stpId) :=
  processDay_urgent_plant_dispatches cfgWit stpsWit [(7, 3)] (fun _ _ => some 2)
    (fun _ => none) (fun _ => 0) 0 (fun _ => 0) [] ⟨0, 10, 5⟩
    (by simp [stpsWit]) (by simp [stpsWit]) (by norm_num)
    (by norm_num [stpsWit, replenish, Function.update])
    ⟨7, by simp [validFarmsOf], rfl⟩

/-- Total tons shipped by plant `pid` in a list of events (the cumulative
decrement applied to its never-clamped ledger entry). -/
def shippedTo (evs : List DeliveryEvent) (pid : ℕ) : ℚ :=
  ((evs.filter fun e => e.stpId == pid).map DeliveryEvent.tons).sum

/-- The dispatch-time ledger fact for one event `e` given the events `pre`
before it: for the plant with `e`'s id, the inventory held at the moment of
dispatch is `(e.day + 1)` replenishments minus everything shipped before,
it is positive, and `e` ships `min(truck capacity, that inventory)`. -/
def LedgerEvent (cfg : Config) (stps : List Stp) (pre : List DeliveryEvent)
    (e : DeliveryEvent) : Prop :=
  ∀ p ∈ stps, p.stpId = e.stpId →
    0 < ((e.day : ℚ) + 1) * p.dailyOutput - shippedTo pre e.stpId ∧
    e.tons = min cfg.truckCapacity
      (((e.day : ℚ) + 1) * p.dailyOutput - shippedTo pre e.stpId)

/-- `LedgerEvent` holds at every position of a log. -/
def LedgerLog (cfg : Config) (stps : List Stp) (sol : List DeliveryEvent) : Prop :=
  ∀ pre e post, sol = pre ++ e :: post → LedgerEvent cfg stps pre e

/-- The engine's never-clamped storage equals `dq` replenishments minus
shipped tons, for every plant. -/
def StorLedger (stps : List Stp) (dq : ℚ) (storage : ℕ → ℚ)
    (evs : List DeliveryEvent) : Prop :=
  ∀ p ∈ stps, storage p.stpId = dq * p.dailyOutput - shippedTo evs p.stpId

lemma shippedTo_append (a b : List DeliveryEvent) (pid : ℕ) :
    shippedTo (a ++ b) pid = shippedTo a pid + shippedTo b pid := by
  simp [shippedTo, List.filter_append]

lemma shippedTo_singleton (e : DeliveryEvent) (pid : ℕ) :
    shippedTo [e] pid = if e.stpId = pid then e.tons else 0 := by
  by_cases h : e.stpId = pid <;> simp [shippedTo, h]

lemma append_singleton_split {α : Type} (a : List α) (x : α) (pre : List α)
    (e : α) (post : List α) (h : a ++ [x] = pre ++ e :: post) :
    (∃ post', a = pre ++ e :: post' ∧ post = post' ++ [x]) ∨
    (pre = a ∧ e = x ∧ post = []) := by
  rcases List.eq_nil_or_concat post with rfl | ⟨q, y, rfl⟩
  · right
    obtain ⟨h1, h2⟩ := List.append_inj' h rfl
    injection h2 with hx
    exact ⟨h1.symm, hx.symm, rfl⟩
  · left
    rw [List.concat_eq_append, show pre ++ e :: (q ++ [y]) = (pre ++ e :: q) ++ [y]
      by simp] at h
    obtain ⟨h1, h2⟩ := List.append_inj' h rfl
    injection h2 with hx
    exact ⟨q, h1, by rw [List.concat_eq_append, hx]⟩

lemma ledgerLog_nil (cfg : Config) (stps : List Stp) :
    LedgerLog cfg stps [] := by
  intro pre e post h
  exact absurd h.symm (List.append_ne_nil_of_right_ne_nil pre (List.cons_ne_nil e post))

lemma ledgerLog_append (cfg : Config) (stps : List Stp) (a : List DeliveryEvent)
    (x : DeliveryEvent) (ha : LedgerLog cfg stps a)
    (hx : LedgerEvent cfg stps a x) : LedgerLog cfg stps (a ++ [x]) := by
  intro pre e post h
  rcases append_singleton_split a x pre e post h with ⟨post', hpre, _⟩ | ⟨h1, h2, _⟩
  · exact ha pre e post' hpre
  · subst h1
    subst h2
    exact hx

lemma replenish_storage_other (stps : List Stp) (storage : ℕ → ℚ) (r : ℕ)
    (hr : r ∉ stps.map Stp.stpId) : replenish stps storage r = storage r := by
  induction stps generalizing storage with
  | nil => rfl
  | cons q rest ih =>
    rw [List.map_cons, List.mem_cons] at hr
    push_neg at hr
    rw [replenish, List.foldl_cons, ← replenish, ih _ hr.2,
      Function.update_noteq hr.1 _ _]

lemma replenish_value (stps : List Stp) (storage : ℕ → ℚ) (p : Stp)
    (hp : p ∈ stps) (hnd : (stps.map Stp.stpId).Nodup) :
    replenish stps storage p.stpId = storage p.stpId + p.dailyOutput := by
  induction stps generalizing storage with
  | nil => cases hp
  | cons q rest ih =>
    rw [List.map_cons, List.nodup_cons] at hnd
    rw [replenish, List.foldl_cons, ← replenish]
    rcases List.mem_cons.mp hp with hpq | hpr
    · subst hpq
      rw [replenish_storage_other rest _ p.stpId hnd.1, Function.update_same]
    · have hne : q.stpId ≠ p.stpId := by
        intro hid
        exact hnd.1 (hid ▸ List.mem_map_of_mem Stp.stpId hpr)
      rw [ih _ hpr hnd.2, Function.update_noteq hne.symm _ _]

lemma dispatchWalk_ledger (cfg : Config) (stps : List Stp) (day sid : ℕ) (mx : ℚ) :
    ∀ (cs : List Candidate) (s : EngineState),
      StorLedger stps ((day : ℚ) + 1) s.storage s.events →
      LedgerLog cfg stps s.events →
      StorLedger stps ((day : ℚ) + 1) (dispatchWalk cfg day sid mx cs s).storage
          (dispatchWalk cfg day sid mx cs s).events ∧
      LedgerLog cfg stps (dispatchWalk cfg day sid mx cs s).events
  | [], s => fun h1 h2 => ⟨h1, h2⟩
  | c :: rest, s => by
    intro h1 h2
    simp only [dispatchWalk]
    split_ifs with hg1 hg2
    · exact ⟨h1, h2⟩
    · exact dispatchWalk_ledger cfg stps day sid mx rest s h1 h2
    · refine dispatchWalk_ledger cfg stps day sid mx rest _ ?_ ?_
      · intro p hp
        have hs := h1 p hp
        have hship : shippedTo (dispatchStep cfg day sid c.farmId s).events p.stpId
            = shippedTo s.events p.stpId
              + (if sid = p.stpId then min cfg.truckCapacity (s.storage sid) else 0) := by
          rw [dispatchStep_events, shippedTo_append, shippedTo_singleton]
        rw [dispatchStep_storage, hship]
        by_cases hpid : sid = p.stpId
        · subst hpid
          rw [if_pos rfl, Function.update_same, hs]
          ring
        · rw [if_neg hpid, add_zero,
            Function.update_noteq (fun hc => hpid hc.symm) _ _]
          exact hs
      · rw [dispatchStep_events]
        refine ledgerLog_append cfg stps _ _ h2 ?_
        intro p hp hpid
        have hs := h1 p hp
        have hpid' : p.stpId = sid := hpid
        rw [hpid'] at hs
        constructor
        · show 0 < ((day : ℚ) + 1) * p.dailyOutput - shippedTo s.events sid
          rw [← hs]
          exact lt_of_not_le hg1
        · show min cfg.truckCapacity (s.storage sid)
            = min cfg.truckCapacity
                (((day : ℚ) + 1) * p.dailyOutput - shippedTo s.events sid)
          rw [hs]

lemma dispatchLogic_ledger (cfg : Config) (stps : List Stp)
    (dist : ℕ → ℕ → Option ℚ) (day : ℕ) (stp : StpStatus) (valid : List ℕ)
    (s : EngineState)
    (h1 : StorLedger stps ((day : ℚ) + 1) s.storage s.events)
    (h2 : LedgerLog cfg stps s.events) :
    StorLedger stps ((day : ℚ) + 1) (dispatchLogic cfg dist day stp valid s).storage
        (dispatchLogic cfg dist day stp valid s).events ∧
    LedgerLog cfg stps (dispatchLogic cfg dist day stp valid s).events := by
  rw [dispatchLogic]
  split_ifs with h
  · exact ⟨h1, h2⟩
  · exact dispatchWalk_ledger cfg stps day stp.stpId stp.maxS _ s h1 h2

lemma foldDispatch_ledger (cfg : Config) (stps : List Stp)
    (dist : ℕ → ℕ → Option ℚ) (day : ℕ) (valid : List ℕ) :
    ∀ (L : List StpStatus) (s : EngineState),
      StorLedger stps ((day : ℚ) + 1) s.storage s.events →
      LedgerLog cfg stps s.events →
      StorLedger stps ((day : ℚ) + 1)
          (L.foldl (fun s stp => dispatchLogic cfg dist day stp valid s) s).storage
          (L.foldl (fun s stp => dispatchLogic cfg dist day stp valid s) s).events ∧
      LedgerLog cfg stps
        (L.foldl (fun s stp => dispatchLogic cfg dist day stp valid s) s).events
  | [], s => fun h1 h2 => ⟨h1, h2⟩
  | stp :: L, s => by
    intro h1 h2
    rw [List.foldl_cons]
    obtain ⟨h1', h2'⟩ := dispatchLogic_ledger cfg stps dist day stp valid s h1 h2
    exact foldDispatch_ledger cfg stps dist day valid L _ h1' h2'

lemma processDay_ledger (cfg : Config) (stps : List Stp) (farmZone : List (ℕ × ℕ))
    (dist : ℕ → ℕ → Option ℚ) (rainLock : ℕ → Option Bool) (demand : ℕ → ℚ)
    (day : ℕ) (storage : ℕ → ℚ) (events : List DeliveryEvent)
    (hnd : (stps.map Stp.stpId).Nodup)
    (hpre : StorLedger stps (day : ℚ) storage events)
    (hlog : LedgerLog cfg stps events) :
    StorLedger stps ((day : ℚ) + 1)
        (processDay cfg stps farmZone dist rainLock demand day storage events).storage
        (processDay cfg stps farmZone dist rainLock demand day storage events).events ∧
    LedgerLog cfg stps
      (processDay cfg stps farmZone dist rainLock demand day storage events).events := by
  have hrep : StorLedger stps ((day : ℚ) + 1) (replenish stps storage) events := by
    intro p hp
    rw [replenish_value stps storage p hp hnd, hpre p hp]
    ring
  exact foldDispatch_ledger cfg stps dist day (validFarmsOf farmZone rainLock)
    ((stps.map (statusOf (replenish stps storage))).mergeSort urgencyLe)
    { storage := replenish stps storage, residual := demand, events := events }
    hrep hlog

lemma solveRange_ledger (cfg : Config) (inp : YearInput)
    (hnd : (inp.stps.map Stp.stpId).Nodup) :
    ∀ n : ℕ,
      StorLedger inp.stps (n : ℚ)
        ((List.range n).foldl
          (fun st d =>
            let s := processDay cfg inp.stps inp.farmZone inp.dist (inp.rainLock d)
              (inp.demandOf d) d st.1 st.2
            (s.storage, s.events))
          (fun _ => 0, [])).1
        ((List.range n).foldl
          (fun st d =>
            let s := processDay cfg inp.stps inp.farmZone inp.dist (inp.rainLock d)
              (inp.demandOf d) d st.1 st.2
            (s.storage, s.events))
          (fun _ => 0, [])).2 ∧
      LedgerLog cfg inp.stps
        ((List.range n).foldl
          (fun st d =>
            let s := processDay cfg inp.stps inp.farmZone inp.dist (inp.rainLock d)
              (inp.demandOf d) d st.1 st.2
            (s.storage, s.events))
          (fun _ => 0, [])).2
  | 0 => by
    constructor
    · intro p _
      simp [shippedTo]
    · exact ledgerLog_nil cfg inp.stps
  | n + 1 => by
    obtain ⟨ih1, ih2⟩ := solveRange_ledger cfg inp hnd n
    rw [List.range_succ, List.foldl_append, List.foldl_cons, List.foldl_nil]
    obtain ⟨h1, h2⟩ := processDay_ledger cfg inp.stps inp.farmZone inp.dist
      (inp.rainLock n) (inp.demandOf n) n _ _ hnd ih1 ih2
    constructor
    · intro p hp
      have h3 := h1 p hp
      push_cast
      exact h3
    · exact h2

/-- Claim C4: every delivery event appended over the year ships
`min(truck capacity, inventory at the moment of dispatch)` tons, where —
because the engine never clamps its ledger — the dispatching plant's
inventory at that moment equals `(e.day + 1)` daily replenishments minus the
tons it shipped in all earlier events of the log; that inventory is
positive, the shipped tons are ≤ the truck capacity and ≤ it, and it stays
nonnegative right after the dispatch; plant storage is also nonnegative
after every number `k` of simulated days. -/
theorem solve_delivery_invariants (cfg : Config) (inp : YearInput)
    (hout : ∀ p ∈ inp.stps, 0 ≤ p.dailyOutput)
    (hnd : (inp.stps.map Stp.stpId).Nodup) :
    (∀ e ∈ solve cfg inp, e.tons ≤ cfg.truckCapacity) ∧
    (∀ pre e post, solve cfg inp = pre ++ e :: post →
      ∀ p ∈ inp.stps, p.stpId = e.stpId →
        0 < ((e.day : ℚ) + 1) * p.dailyOutput - shippedTo pre e.stpId ∧
        e.tons = min cfg.truckCapacity
          (((e.day : ℚ) + 1) * p.dailyOutput - shippedTo pre e.stpId) ∧
        e.tons ≤ ((e.day : ℚ) + 1) * p.dailyOutput - shippedTo pre e.stpId ∧
        0 ≤ ((e.day : ℚ) + 1) * p.dailyOutput - shippedTo pre e.stpId - e.tons) ∧
    (∀ k q, 0 ≤ (solveFull cfg { inp with numDays := k }).1 q) := by
  refine ⟨?_, ?_, ?_⟩
  · intro e he
    obtain ⟨_, h2⟩ := solveDays_spec cfg inp hout (List.range inp.numDays)
      (fun _ => 0, []) (fun _ => le_refl 0) (by simp)
    obtain ⟨σ, _, htons⟩ := h2 e he
    rw [htons]
    exact min_le_left _ _
  · intro pre e post hsplit p hp hpid
    have hlog : LedgerLog cfg inp.stps (solve cfg inp) :=
      (solveRange_ledger cfg inp hnd inp.numDays).2
    obtain ⟨hpos, htons⟩ := hlog pre e post hsplit p hp hpid
    refine ⟨hpos, htons, ?_, ?_⟩
    · rw [htons]
      exact min_le_right _ _
    · rw [htons]
      have hmin := min_le_right cfg.truckCapacity
        (((e.day : ℚ) + 1) * p.dailyOutput - shippedTo pre e.stpId)
      linarith
  · intro k q
    exact (solveDays_spec cfg { inp with numDays := k } hout (List.range k)
      (fun _ => 0, []) (fun _ => le_refl 0) (by simp)).1 q

/-- Witness for C4 at a concrete one-plant configuration. -/
theorem solve_delivery_invariants_witness :
    (∀ e ∈ solve cfgWit inpWit, e.tons ≤ cfgWit.truckCapacity) ∧
    (∀ pre e post, solve cfgWit inpWit = pre ++ e :: post →
      ∀ p ∈ inpWit.stps, p.stpId = e.stpId →
        0 < ((e.day : ℚ) + 1) * p.dailyOutput - shippedTo pre e.stpId ∧
        e.tons = min cfgWit.truckCapacity
          (((e.day : ℚ) + 1) * p.dailyOutput - shippedTo pre e.stpId) ∧
        e.tons ≤ ((e.day : ℚ) + 1) * p.dailyOutput - shippedTo pre e.stpId ∧
        0 ≤ ((e.day : ℚ) + 1) * p.dailyOutput - shippedTo pre e.stpId - e.tons) ∧
    (∀ k q, 0 ≤ (solveFull cfgWit { inpWit with numDays := k }).1 q) :=
  solve_delivery_invariants cfgWit inpWit (by norm_num [inpWit]) (by simp [inpWit])
